import Mathlib

/-!
Shallow embedding of the MGCX time-series independence test
(`mgcpy/independence_tests/mgcx.py`) and the parts of the benchmark driver
it relies on.

Modelling conventions:
* Real-valued numpy scalars are modelled as `ℚ` with exact arithmetic.
* A distance matrix is a function `ℕ → ℕ → ℚ` together with an explicit
  size `n`; slicing `m[j:n, j:n]` becomes index shifting and `m[0:(n-j),
  0:(n-j)]` is the same function with the smaller size.
* The Multiscale Correlation Engine (`self.mgc.test_statistic`) and the
  distance transform (`compute_distance`) are external collaborators of the
  code under study; they are parameters of every definition, exactly as the
  spec treats them (opaque call contracts).
* Randomness (`np.random.choice`) is passed in explicitly: the list of
  drawn block-start indices for a repetition is an argument.
* The Python object `self` is modelled by an explicit state record that is
  threaded through `test_statistic` / `p_value`, so attribute assignments
  (`self.test_statistic_ = ...`) become visible state updates.
* Inside `p_value`, the code calls `self.test_statistic` on matrices that
  are already distance matrices; per the spec's external-interface
  contract, `compute_distance` passes such matrices through unchanged, so
  those internal calls are modelled as the lag search applied to the
  distance matrices directly.
-/

/-- A (distance) matrix, as an index function; the size is kept separately. -/
def Mat : Type := ℕ → ℕ → ℚ

/-- The Multiscale Correlation Engine interface (`self.mgc.test_statistic`):
given a size and two distance matrices, it returns the statistic and the
`optimal_scale` metadata. Deterministic black box, per the spec. -/
structure MGCEngine where
  stat : ℕ → Mat → Mat → ℚ
  scale : ℕ → Mat → Mat → ℕ × ℕ

/-- Raw input to `test_statistic` / `p_value`: either a 1-D numpy array or a
2-D data/distance matrix (rows as lists). -/
inductive DataInput where
  | vec : List ℚ → DataInput
  | mat : List (List ℚ) → DataInput

/-- The sample count `matrix.shape[0]`. -/
def shape0 : DataInput → ℕ
  | DataInput.vec v => v.length
  | DataInput.mat m => m.length

/-- A length-`n` vector viewed as an `[n, 1]` column matrix
(`v.reshape((n, 1))`). -/
def colMat (v : List ℚ) : List (List ℚ) :=
  v.map (fun x => [x])

/-- The 2-D matrix the code works with after the
`if len(matrix.shape) == 1: matrix = matrix.reshape((n, 1))` step. -/
def to2d : DataInput → List (List ℚ)
  | DataInput.vec v => colMat v
  | DataInput.mat m => m

/-- The pluggable distance transform `compute_distance`: maps the two 2-D
data matrices to their distance matrices (an external collaborator). -/
def DistTransform : Type := List (List ℚ) → List (List ℚ) → Mat × Mat

/-- Exact `math.ceil(math.sqrt(n))` for a natural `n`: the least `k`
with `n ≤ k * k`. -/
def ceilSqrt (n : ℕ) : ℕ :=
  if Nat.sqrt n * Nat.sqrt n = n then Nat.sqrt n else Nat.sqrt n + 1

/-- The constructor default `max_lag = 0` from
`def __init__(self, compute_distance_matrix=None, max_lag = 0)`.
`some k` models the Python integer `k`; `none` models Python `None`. -/
def defaultMaxLag : Option ℕ := some 0

/-- The lag bound actually used by `test_statistic`:
`M = self.max_lag if self.max_lag is not None else math.ceil(math.sqrt(n))`. -/
def usedLagBound (max_lag : Option ℕ) (n : ℕ) : ℕ :=
  match max_lag with
  | some m => m
  | none => ceilSqrt n

/-- The slice `matrix_X[j:n, j:n]`: drop the first `j` rows and columns. -/
def lagSub (dx : Mat) (j : ℕ) : Mat :=
  fun a b => dx (j + a) (j + b)

/-- The value stored at `dependence_by_lag[j]` for `j ≥ 1`:
`(n-j) * np.maximum(0.0, mgc_statistic) / n` where the engine runs on the
`(n-j) × (n-j)` sub-matrices `matrix_X[j:n, j:n]` and
`matrix_Y[0:(n-j), 0:(n-j)]`. -/
def depAtLag (e : MGCEngine) (n : ℕ) (dx dy : Mat) (j : ℕ) : ℚ :=
  ((n : ℚ) - (j : ℚ)) * max 0 (e.stat (n - j) (lagSub dx j) dy) / (n : ℚ)

/-- Loop state of the lag-search loop in `test_statistic`: the
`dependence_by_lag` entries filled so far, `max_dependence`, `optimal_lag`
and `optimal_scale`. -/
structure LagAcc where
  deps : List ℚ
  max_dependence : ℚ
  optimal_lag : ℕ
  optimal_scale : ℕ × ℕ

/-- One iteration of `for j in range(1, M+1)` in `test_statistic`:
store `dependence_by_lag[j]` and update the running maximum when
`dependence_by_lag[j] > max_dependence` (strictly). -/
def lagStep (e : MGCEngine) (n : ℕ) (dx dy : Mat) (acc : LagAcc) (j : ℕ) : LagAcc :=
  if acc.max_dependence < depAtLag e n dx dy j then
    ⟨acc.deps ++ [depAtLag e n dx dy j], depAtLag e n dx dy j, j,
      e.scale (n - j) (lagSub dx j) dy⟩
  else
    ⟨acc.deps ++ [depAtLag e n dx dy j], acc.max_dependence, acc.optimal_lag,
      acc.optimal_scale⟩

/-- The lag-search core of `test_statistic` on the distance matrices:
lag 0 runs the engine on the full matrices and clamps at 0; lags `1..M`
run `lagStep`. -/
def lagSearch (e : MGCEngine) (n M : ℕ) (dx dy : Mat) : LagAcc :=
  (List.range M).foldl (fun acc k => lagStep e n dx dy acc (k + 1))
    ⟨[max 0 (e.stat n dx dy)], max 0 (e.stat n dx dy), 0, e.scale n dx dy⟩

/-- The scalar value returned by `self.test_statistic` on two distance
matrices of size `n` with lag bound `M`: `np.sum(dependence_by_lag)`. -/
def tsValue (e : MGCEngine) (n M : ℕ) (dx dy : Mat) : ℚ :=
  (lagSearch e n M dx dy).deps.sum

/-- The `test_statistic_metadata_` record. -/
structure TSMeta where
  optimal_lag : ℕ
  optimal_scale : ℕ × ℕ
  dependence_by_lag : List ℚ
deriving DecidableEq

/-- Errors surfaced by the precondition assertions
(`assert matrix_X.shape[0] == matrix_Y.shape[0]`); the spec calls this
`InvalidInputError`. -/
inductive MgcxError where
  | invalidInput
deriving DecidableEq

/-- The mutable attributes of an `MGCX` object that `test_statistic` and
`p_value` read or write. `none` models an attribute not yet set. -/
structure MGCXState where
  max_lag : Option ℕ
  test_statistic_ : Option ℚ
  test_statistic_metadata_ : Option TSMeta
  p_value_ : Option ℚ
  p_value_metadata_ : Option (List ℚ)
deriving DecidableEq

/-- Embedding of `MGCX.test_statistic(matrix_X, matrix_Y)`: assert equal sample counts,
coerce 1-D inputs to `[n, 1]`, apply the distance transform, run the lag
search with `M = usedLagBound`, store the results on `self` and return
them. Returns the result together with the post-call object state. -/
def MGCX.test_statistic (e : MGCEngine) (cd : DistTransform) (st : MGCXState)
    (X Y : DataInput) : Except MgcxError (ℚ × TSMeta) × MGCXState :=
  if shape0 X = shape0 Y then
    let n := shape0 X
    let dxy := cd (to2d X) (to2d Y)
    let M := usedLagBound st.max_lag n
    let acc := lagSearch e n M dxy.1 dxy.2
    let meta : TSMeta := ⟨acc.optimal_lag, acc.optimal_scale, acc.deps⟩
    (Except.ok (acc.deps.sum, meta),
      ⟨st.max_lag, some acc.deps.sum, some meta, st.p_value_, st.p_value_metadata_⟩)
  else
    (Except.error MgcxError.invalidInput, st)

/-- The number of block starting indices drawn by one repetition:
`np.random.choice(n, n // block_size + 1)` draws `n // block_size + 1`
values (Python `//` is floor division). -/
def numBlockDraws (n block_size : ℕ) : ℕ :=
  n / block_size + 1

/-- The permuted index sequence of one repetition, given the drawn block
starts: `np.r_[[np.arange(t, t + block_size) for t in starts]].flatten()[:n]`
followed by `np.mod(, n)`. -/
def blockPermutedIndices (n block_size : ℕ) (starts : List ℕ) : List ℕ :=
  ((starts.map (fun t => (List.range block_size).map (fun k => t + k))).flatten.take n).map
    (fun i => i % n)

/-- Fancy indexing `matrix[np.ix_(idx, idx)]` for a function-matrix. -/
def permuteMat (m : Mat) (idx : List ℕ) : Mat :=
  fun a b => m (idx.getD a 0) (idx.getD b 0)

/-- The null distribution built by the exact (block-bootstrap) path: one
lag-search statistic per repetition, each on `matrix_X` and `matrix_Y`
permuted by that repetition's drawn block starts (`draws rep`). -/
def exactNullStats (e : MGCEngine) (n M block_size rf : ℕ) (dx dy : Mat)
    (draws : ℕ → List ℕ) : List ℚ :=
  (List.range rf).map (fun rep =>
    tsValue e n M dx (permuteMat dy (blockPermutedIndices n block_size (draws rep))))

/-- The tail computation of `p_value`:
`np.sum(np.greater(test_stats_null, test_statistic)) / replication_factor`,
replaced by `1 / replication_factor` when it is exactly `0.0`. -/
def pValueFromNull (null_stats : List ℚ) (obs : ℚ) (rf : ℕ) : ℚ :=
  let p := ((null_stats.countP (fun s => decide (obs < s)) : ℕ) : ℚ) / (rf : ℚ)
  if p = 0 then 1 / (rf : ℚ) else p

/-- Embedding of `MGCX.p_value(matrix_X, matrix_Y, replication_factor)` on the exact
(`is_fast=False`) path: assert equal sample counts, coerce, transform,
compute the observed statistic (the internal `self.test_statistic` call,
which also sets the statistic attributes), build the null distribution from
the per-repetition block permutations and derive the empirical p-value. -/
def MGCX.p_value_exact (e : MGCEngine) (cd : DistTransform) (st : MGCXState)
    (X Y : DataInput) (replication_factor : ℕ) (draws : ℕ → List ℕ) :
    Except MgcxError (ℚ × List ℚ) × MGCXState :=
  if shape0 X = shape0 Y then
    let n := shape0 X
    let dxy := cd (to2d X) (to2d Y)
    let M := usedLagBound st.max_lag n
    let acc := lagSearch e n M dxy.1 dxy.2
    let meta : TSMeta := ⟨acc.optimal_lag, acc.optimal_scale, acc.deps⟩
    let block_size := ceilSqrt n
    let nulls := exactNullStats e n M block_size replication_factor dxy.1 dxy.2 draws
    let p := pValueFromNull nulls acc.deps.sum replication_factor
    (Except.ok (p, nulls),
      ⟨st.max_lag, some acc.deps.sum, some meta, some p, some nulls⟩)
  else
    (Except.error MgcxError.invalidInput, st)

/-- The mean `np.mean` on a list of rationals. -/
def npMean (l : List ℚ) : ℚ :=
  l.sum / (l.length : ℚ)

/-- The square of `np.std(l)` (population variance, `ddof = 0`). -/
def npVar (l : List ℚ) : ℚ :=
  ((l.map (fun x => (x - npMean l) ^ 2)).sum) / (l.length : ℚ)

/-- The `test_stats_null` array of `_fast_p_value`: allocated as
`np.zeros(num_samples * subsample_size)`, with only the entries
`i < num_samples` overwritten by the lag-search statistic of the `i`-th
contiguous subsample block (`indices = arange(subsample_size*i,
subsample_size*(i+1))`) of `matrix_X` and the once-permuted `matrix_Y`. -/
def fastNullStats (e : MGCEngine) (max_lag : Option ℕ) (dx dyPerm : Mat)
    (num_samples subsample_size : ℕ) : List ℚ :=
  (List.range (num_samples * subsample_size)).map (fun i =>
    if i < num_samples then
      tsValue e subsample_size (usedLagBound max_lag subsample_size)
        (fun a b => dx (subsample_size * i + a) (subsample_size * i + b))
        (fun a b => dyPerm (subsample_size * i + a) (subsample_size * i + b))
    else 0)

/-- The data of the fast path's Normal approximation: the
`null_distribution` metadata, `mu = np.mean(test_stats_null)` and the
square of `sigma = np.std(test_stats_null) / np.sqrt(num_samples)`
(the final `1 - norm.cdf(test_statistic, mu, sigma)` evaluation is an
external scipy call, irrational in general, and is not re-derived here). -/
structure FastResult where
  null_distribution : List ℚ
  mu : ℚ
  sigmaSq : ℚ
deriving DecidableEq

/-- Embedding of `MGCX._fast_p_value` up to the Normal tail evaluation: permute `Y`
once with the drawn block starts, build `test_stats_null` over the
`num_samples = n // subsample_size` contiguous subsample blocks, and fit
`mu` and `sigma`. -/
def fast_p_value_approx (e : MGCEngine) (max_lag : Option ℕ) (n : ℕ)
    (dx dy : Mat) (block_size subsample_size : ℕ) (starts : List ℕ) : FastResult :=
  let num_samples := n / subsample_size
  let permuted_Y := permuteMat dy (blockPermutedIndices n block_size starts)
  let nulls := fastNullStats e max_lag dx permuted_Y num_samples subsample_size
  ⟨nulls, npMean nulls, npVar nulls / (num_samples : ℚ)⟩

/-! ### Concrete instances used to evaluate the embedding -/

/-- A concrete engine whose statistic is constantly `1`. -/
def e1 : MGCEngine := ⟨fun _ _ _ => 1, fun _ _ _ => (0, 0)⟩

/-- A concrete distance transform returning all-zero matrices. -/
def cd0 : DistTransform := fun _ _ => (fun _ _ => 0, fun _ _ => 0)

/-- The all-zero matrix. -/
def zeroMat : Mat := fun _ _ => 0

/-- A freshly constructed `MGCX()` object: `max_lag` has its Python default
`0` and no result attribute has been written yet. -/
def st0 : MGCXState := ⟨defaultMaxLag, none, none, none, none⟩

/-- A concrete 2-observation input. -/
def X0 : DataInput := DataInput.mat [[0], [0]]

/-- A concrete 2-observation input. -/
def Y0 : DataInput := DataInput.mat [[0], [0]]

/-- A concrete 1-observation input (sample count differs from `X0`). -/
def Y1 : DataInput := DataInput.mat [[0]]

/-- A concrete draw source for the block permutations. -/
def draws0 : ℕ → List ℕ := fun _ => [0, 1]

/-! ### Helper lemmas about the lag-search loop -/

/-- Each `lagStep` appends exactly one entry, `depAtLag j`, to
`dependence_by_lag`, whichever branch of the maximum update is taken. -/
theorem lagStep_deps (e : MGCEngine) (n : ℕ) (dx dy : Mat) (acc : LagAcc) (j : ℕ) :
    (lagStep e n dx dy acc j).deps = acc.deps ++ [depAtLag e n dx dy j] := by
  unfold lagStep
  split <;> rfl

/-- The `dependence_by_lag` list built by the loop: entry `0` is the clamped
engine statistic on the full matrices, entry `j ≥ 1` is `depAtLag j`. -/
theorem lagSearch_deps (e : MGCEngine) (n M : ℕ) (dx dy : Mat) :
    (lagSearch e n M dx dy).deps =
      (List.range (M + 1)).map
        (fun j => if j = 0 then max 0 (e.stat n dx dy) else depAtLag e n dx dy j) := by
  induction M with
  | zero => rfl
  | succ m ih =>
      unfold lagSearch at ih ⊢
      rw [List.range_succ, List.foldl_append, List.foldl_cons, List.foldl_nil,
        lagStep_deps, ih, show m + 1 + 1 = (m + 1) + 1 from rfl,
        List.range_succ (m + 1), List.map_append]
      simp

/-! ### Helper lemmas about the block-permutation index generation -/

/-- Positivity of `ceilSqrt` on positive inputs. -/
theorem ceilSqrt_pos (n : ℕ) (hn : 1 ≤ n) : 1 ≤ ceilSqrt n := by
  unfold ceilSqrt
  split
  · exact Nat.sqrt_pos.mpr hn
  · omega

/-- Evaluation rule for `ceilSqrt` strictly between consecutive squares or
at the upper square. -/
theorem ceilSqrt_eq_succ (n k : ℕ) (h1 : k * k < n) (h2 : n ≤ (k + 1) * (k + 1)) :
    ceilSqrt n = k + 1 := by
  unfold ceilSqrt
  rcases Nat.lt_or_ge n ((k + 1) * (k + 1)) with hlt | hge
  · have hs1 : k ≤ Nat.sqrt n := Nat.le_sqrt.mpr (Nat.le_of_lt h1)
    have hs2 : Nat.sqrt n < k + 1 := Nat.sqrt_lt.mpr hlt
    have hs : Nat.sqrt n = k := by omega
    rw [hs, if_neg (by omega)]
  · have hn : n = (k + 1) * (k + 1) := by omega
    subst hn
    rw [Nat.sqrt_eq, if_pos rfl]

/-- The flattened concatenation of the per-start blocks: position `k` holds
`starts[k / block_size] + k % block_size`. -/
theorem blocks_flatten_getElem (b : ℕ) (starts : List ℕ) (k : ℕ)
    (hk : k < starts.length * b) :
    ((starts.map (fun t => (List.range b).map (fun j => t + j))).flatten)[k]? =
      some (starts.getD (k / b) 0 + k % b) := by
  induction starts generalizing k with
  | nil => simp at hk
  | cons t ts ih =>
      rw [List.map_cons, List.flatten_cons]
      have hb : 0 < b := by
        rcases Nat.eq_zero_or_pos b with hb0 | hb0
        · rw [hb0] at hk; omega
        · exact hb0
      rw [List.getElem?_append]
      have hlen : ((List.range b).map (fun j => t + j)).length = b := by simp
      rw [hlen]
      by_cases hkb : k < b
      · rw [if_pos hkb, List.getElem?_map, List.getElem?_range hkb]
        simp [Nat.div_eq_of_lt hkb, Nat.mod_eq_of_lt hkb]
      · rw [if_neg hkb]
        have hk' : k - b < ts.length * b := by
          simp only [List.length_cons] at hk
          have hmul : (ts.length + 1) * b = ts.length * b + b := by ring
          omega
        rw [ih (k - b) hk']
        have hkeq : k = (k - b) + b := by omega
        rw [hkeq, Nat.add_div_right _ hb, Nat.add_mod_right]
        simp [List.getD_cons_succ]

/-- Enough indices are always generated: with the code's
`n // block_size + 1` draws, the concatenated blocks cover at least `n`
positions, so the truncated sequence has length exactly `n`. -/
theorem blockPermutedIndices_length (n b : ℕ) (starts : List ℕ) (hb : 1 ≤ b)
    (hlen : starts.length = numBlockDraws n b) :
    (blockPermutedIndices n b starts).length = n := by
  unfold blockPermutedIndices
  rw [List.length_map, List.length_take, List.length_flatten, List.map_map]
  have hconst : (List.length ∘ fun t => (List.range b).map (fun j => t + j)) =
      fun _ => b := by
    funext t
    simp
  rw [hconst, List.map_const', List.sum_replicate, smul_eq_mul, hlen]
  unfold numBlockDraws
  have hmul : (n / b + 1) * b = b * (n / b) + b := by ring
  have hdm : b * (n / b) + n % b = n := Nat.div_add_mod n b
  have hmod : n % b < b := Nat.mod_lt n hb
  omega

/-- Every generated index is reduced `mod n`, hence lies in `[0, n)`. -/
theorem blockPermutedIndices_mem (n b : ℕ) (starts : List ℕ) (hn : 1 ≤ n)
    (x : ℕ) (hx : x ∈ blockPermutedIndices n b starts) : x < n := by
  unfold blockPermutedIndices at hx
  rw [List.mem_map] at hx
  obtain ⟨y, _, rfl⟩ := hx
  exact Nat.mod_lt y hn

/-! ### Claim theorems -/

/-- Claim C4 (divergence): with the constructor default `max_lag = 0`
(which is not `None`), the lag bound used by `test_statistic` is `0` for
every sample count `n`, not `ceil(sqrt(n))`; at `n = 9` the claimed default
would be `3`. -/
theorem mgcx_C4_default_lag_bound_is_zero :
    (∀ n : ℕ, usedLagBound defaultMaxLag n = 0) ∧
    ceilSqrt 9 = 3 ∧ usedLagBound defaultMaxLag 9 ≠ ceilSqrt 9 := by
  have h9 : ceilSqrt 9 = 3 := ceilSqrt_eq_succ 9 2 (by norm_num) (by norm_num)
  exact ⟨fun n => rfl, h9, by rw [h9]; decide⟩

/-- Claim C6: on any accepted inputs, the scalar statistic returned by
`test_statistic` equals exactly the sum of the returned
`dependence_by_lag` sequence, with no additional scaling. -/
theorem mgcx_C6_statistic_is_sum_of_lags (e : MGCEngine) (cd : DistTransform)
    (st : MGCXState) (X Y : DataInput) (s : ℚ) (m : TSMeta)
    (hok : (MGCX.test_statistic e cd st X Y).1 = Except.ok (s, m)) :
    s = m.dependence_by_lag.sum := by
  unfold MGCX.test_statistic at hok
  split at hok
  · simp only [Except.ok.injEq, Prod.mk.injEq] at hok
    obtain ⟨hs, hm⟩ := hok
    rw [← hs, ← hm]
  · simp at hok

/-- Claim C6 witness: a concrete accepted call whose returned statistic is
the sum of its returned per-lag sequence. -/
theorem mgcx_C6_witness :
    (MGCX.test_statistic e1 cd0 st0 X0 Y0).1 =
      Except.ok (([max 0 1] : List ℚ).sum, ⟨0, (0, 0), [max 0 1]⟩) ∧
    (([max 0 1] : List ℚ).sum = (TSMeta.mk 0 (0, 0) [max 0 1]).dependence_by_lag.sum) := by
  have hok : (MGCX.test_statistic e1 cd0 st0 X0 Y0).1 =
      Except.ok (([max 0 1] : List ℚ).sum, ⟨0, (0, 0), [max 0 1]⟩) := rfl
  exact ⟨hok, mgcx_C6_statistic_is_sum_of_lags e1 cd0 st0 X0 Y0 _ _ hok⟩

/-- Claim C7: when the sample counts of the two inputs differ, both
`test_statistic` and `p_value` fail with the `InvalidInputError` assertion
at entry, and the object state is untouched (nothing was computed). -/
theorem mgcx_C7_shape_mismatch_rejected (e : MGCEngine) (cd : DistTransform)
    (st : MGCXState) (X Y : DataInput) (rf : ℕ) (draws : ℕ → List ℕ)
    (h : shape0 X ≠ shape0 Y) :
    MGCX.test_statistic e cd st X Y = (Except.error MgcxError.invalidInput, st) ∧
    MGCX.p_value_exact e cd st X Y rf draws =
      (Except.error MgcxError.invalidInput, st) := by
  constructor
  · unfold MGCX.test_statistic
    rw [if_neg h]
  · unfold MGCX.p_value_exact
    rw [if_neg h]

/-- Claim C7 witness: inputs with 2 and 1 observations are rejected by both
operations. -/
theorem mgcx_C7_witness :
    shape0 X0 ≠ shape0 Y1 ∧
    (MGCX.test_statistic e1 cd0 st0 X0 Y1 =
        (Except.error MgcxError.invalidInput, st0) ∧
      MGCX.p_value_exact e1 cd0 st0 X0 Y1 5 draws0 =
        (Except.error MgcxError.invalidInput, st0)) :=
  ⟨by decide, mgcx_C7_shape_mismatch_rejected e1 cd0 st0 X0 Y1 5 draws0 (by decide)⟩

/-- Claim C9 counterexample: `test_statistic` does change fields of the
test object — on a fresh object, the `test_statistic_` attribute goes from
unset to the computed statistic, so the post-call state differs from the
pre-call state. -/
theorem mgcx_C9_counterexample :
    (MGCX.test_statistic e1 cd0 st0 X0 Y0).2 ≠ st0 := by
  intro h
  have h2 := congrArg (fun s : MGCXState => s.test_statistic_.isSome) h
  simp [MGCX.test_statistic, st0, X0, Y0, shape0] at h2

/-- Claim C9 (amended): `test_statistic` mutates no inputs and leaves
`max_lag`, `p_value_` and `p_value_metadata_` unchanged, but it does write
the returned statistic and metadata into the object's `test_statistic_`
and `test_statistic_metadata_` attributes (on the error path the state is
fully unchanged). -/
theorem mgcx_C9_state_effect (e : MGCEngine) (cd : DistTransform)
    (st : MGCXState) (X Y : DataInput) (s : ℚ) (m : TSMeta)
    (hok : (MGCX.test_statistic e cd st X Y).1 = Except.ok (s, m)) :
    (MGCX.test_statistic e cd st X Y).2 =
      ⟨st.max_lag, some s, some m, st.p_value_, st.p_value_metadata_⟩ := by
  unfold MGCX.test_statistic at hok ⊢
  split at hok
  · next hsh =>
      rw [if_pos hsh]
      simp only [Except.ok.injEq, Prod.mk.injEq] at hok
      obtain ⟨hs, hm⟩ := hok
      dsimp only
      rw [hs, hm]
  · simp at hok

/-- Claim C9 (amended) witness: the concrete post-call state of a fresh
object. -/
theorem mgcx_C9_witness :
    (MGCX.test_statistic e1 cd0 st0 X0 Y0).1 =
      Except.ok (([max 0 1] : List ℚ).sum, ⟨0, (0, 0), [max 0 1]⟩) ∧
    (MGCX.test_statistic e1 cd0 st0 X0 Y0).2 =
      ⟨st0.max_lag, some (([max 0 1] : List ℚ).sum),
        some ⟨0, (0, 0), [max 0 1]⟩, st0.p_value_, st0.p_value_metadata_⟩ := by
  have hok : (MGCX.test_statistic e1 cd0 st0 X0 Y0).1 =
      Except.ok (([max 0 1] : List ℚ).sum, ⟨0, (0, 0), [max 0 1]⟩) := rfl
  exact ⟨hok, mgcx_C9_state_effect e1 cd0 st0 X0 Y0 _ _ hok⟩

/-- Claim C5: on any accepted inputs with `n` observations and lag bound
`M`, entry `0` of the returned `dependence_by_lag` is `max(0, s0)` for the
engine statistic `s0` on the full distance matrices, and entry `j = 1..M`
is `((n-j)/n) * max(0, sj)` for the engine statistic `sj` on the
sub-matrices that drop the first `j` rows/columns of X's distance matrix
and the last `j` rows/columns of Y's. -/
theorem mgcx_C5_dependence_by_lag (e : MGCEngine) (cd : DistTransform)
    (st : MGCXState) (X Y : DataInput) (s : ℚ) (m : TSMeta) (j : ℕ)
    (hok : (MGCX.test_statistic e cd st X Y).1 = Except.ok (s, m))
    (hj : j ≤ usedLagBound st.max_lag (shape0 X)) :
    m.dependence_by_lag[j]? =
      some (if j = 0 then
          max 0 (e.stat (shape0 X) (cd (to2d X) (to2d Y)).1 (cd (to2d X) (to2d Y)).2)
        else
          ((shape0 X : ℚ) - (j : ℚ)) / (shape0 X : ℚ) *
            max 0 (e.stat (shape0 X - j) (lagSub (cd (to2d X) (to2d Y)).1 j)
              (cd (to2d X) (to2d Y)).2)) := by
  unfold MGCX.test_statistic at hok
  split at hok
  · simp only [Except.ok.injEq, Prod.mk.injEq] at hok
    obtain ⟨hs, hm⟩ := hok
    rw [← hm]
    dsimp only
    rw [lagSearch_deps, List.getElem?_map, List.getElem?_range (by omega)]
    simp only [Option.map_some']
    congr 1
    by_cases hj0 : j = 0
    · rw [if_pos hj0, if_pos hj0]
    · rw [if_neg hj0, if_neg hj0]
      unfold depAtLag
      rw [div_mul_eq_mul_div]
  · simp at hok

/-- Claim C5 witness: a concrete accepted call, checked at lag `0`. -/
theorem mgcx_C5_witness :
    (MGCX.test_statistic e1 cd0 st0 X0 Y0).1 =
      Except.ok (([max 0 1] : List ℚ).sum, ⟨0, (0, 0), [max 0 1]⟩) ∧
    (0 : ℕ) ≤ usedLagBound st0.max_lag (shape0 X0) ∧
    ((TSMeta.mk 0 (0, 0) [max 0 1]).dependence_by_lag[(0 : ℕ)]? =
      some (if (0 : ℕ) = 0 then
          max 0 (e1.stat (shape0 X0) (cd0 (to2d X0) (to2d Y0)).1
            (cd0 (to2d X0) (to2d Y0)).2)
        else
          ((shape0 X0 : ℚ) - ((0 : ℕ) : ℚ)) / (shape0 X0 : ℚ) *
            max 0 (e1.stat (shape0 X0 - 0) (lagSub (cd0 (to2d X0) (to2d Y0)).1 0)
              (cd0 (to2d X0) (to2d Y0)).2))) := by
  have hok : (MGCX.test_statistic e1 cd0 st0 X0 Y0).1 =
      Except.ok (([max 0 1] : List ℚ).sum, ⟨0, (0, 0), [max 0 1]⟩) := rfl
  exact ⟨hok, Nat.zero_le _,
    mgcx_C5_dependence_by_lag e1 cd0 st0 X0 Y0 _ _ 0 hok (Nat.zero_le _)⟩

/-- Claim C2 counterexample: at `n = 5` (so `block_size = ceil(sqrt(5)) = 3`)
the code draws `5 // 3 + 1 = 2` block starts, not `ceil(5/3) + 1 = 3` as
claimed. -/
theorem mgcx_C2_counterexample :
    numBlockDraws 5 (ceilSqrt 5) ≠ (5 + ceilSqrt 5 - 1) / ceilSqrt 5 + 1 := by
  have h5 : ceilSqrt 5 = 3 := ceilSqrt_eq_succ 5 2 (by norm_num) (by norm_num)
  rw [h5]
  decide

/-- Claim C2 (amended): each repetition draws `n // block_size + 1`
(floor, not ceiling) block starting indices; the permuted sequence then
has length exactly `n`, and its `k`-th entry is position `k % block_size`
of the block starting at draw `k / block_size`, wrapped modulo `n`. -/
theorem mgcx_C2_block_structure (n b : ℕ) (starts : List ℕ) (hb : 1 ≤ b)
    (hlen : starts.length = numBlockDraws n b) :
    (blockPermutedIndices n b starts).length = n ∧
    ∀ k, k < n →
      (blockPermutedIndices n b starts)[k]? =
        some ((starts.getD (k / b) 0 + k % b) % n) := by
  refine ⟨blockPermutedIndices_length n b starts hb hlen, ?_⟩
  intro k hk
  unfold blockPermutedIndices
  rw [List.getElem?_map, List.getElem?_take, if_pos hk,
    blocks_flatten_getElem b starts k ?hk]
  · simp
  case hk =>
    rw [hlen]
    unfold numBlockDraws
    have hmul : (n / b + 1) * b = b * (n / b) + b := by ring
    have hdm : b * (n / b) + n % b = n := Nat.div_add_mod n b
    have hmod : n % b < b := Nat.mod_lt n hb
    omega

/-- Claim C2 (amended) witness: `n = 5`, `block_size = 3`, two drawn
starts. -/
theorem mgcx_C2_witness :
    (1 : ℕ) ≤ 3 ∧ ([0, 3] : List ℕ).length = numBlockDraws 5 3 ∧
    ((blockPermutedIndices 5 3 [0, 3]).length = 5 ∧
      ∀ k, k < 5 →
        (blockPermutedIndices 5 3 [0, 3])[k]? =
          some ((([0, 3] : List ℕ).getD (k / 3) 0 + k % 3) % 5)) :=
  ⟨by decide, by decide, mgcx_C2_block_structure 5 3 [0, 3] (by decide) (by decide)⟩

/-- Claim C8: for `n ≥ 1` and `block_size = ceil(sqrt(n))`, one
repetition's permuted index sequence has length exactly `n` and every
value lies in `[0, n)`, so indexing the `n × n` distance matrix with it is
in bounds. -/
theorem mgcx_C8_permutation_in_bounds (n : ℕ) (starts : List ℕ) (hn : 1 ≤ n)
    (hlen : starts.length = numBlockDraws n (ceilSqrt n)) :
    (blockPermutedIndices n (ceilSqrt n) starts).length = n ∧
    ∀ x ∈ blockPermutedIndices n (ceilSqrt n) starts, x < n :=
  ⟨blockPermutedIndices_length n (ceilSqrt n) starts (ceilSqrt_pos n hn) hlen,
    fun x hx => blockPermutedIndices_mem n (ceilSqrt n) starts hn x hx⟩

/-- Claim C8 witness: `n = 5` with the two drawn starts `[0, 3]`. -/
theorem mgcx_C8_witness :
    (1 : ℕ) ≤ 5 ∧ ([0, 3] : List ℕ).length = numBlockDraws 5 (ceilSqrt 5) ∧
    ((blockPermutedIndices 5 (ceilSqrt 5) [0, 3]).length = 5 ∧
      ∀ x ∈ blockPermutedIndices 5 (ceilSqrt 5) [0, 3], x < 5) := by
  have h5 : ceilSqrt 5 = 3 := ceilSqrt_eq_succ 5 2 (by norm_num) (by norm_num)
  have hlen : ([0, 3] : List ℕ).length = numBlockDraws 5 (ceilSqrt 5) := by
    rw [h5]
    decide
  exact ⟨by decide, hlen, mgcx_C8_permutation_in_bounds 5 [0, 3] (by decide) hlen⟩

/-- The exact-path null distribution has one entry per repetition. -/
theorem exactNullStats_length (e : MGCEngine) (n M b rf : ℕ) (dx dy : Mat)
    (draws : ℕ → List ℕ) :
    (exactNullStats e n M b rf dx dy draws).length = rf := by
  unfold exactNullStats
  simp

/-- The empirical tail computation: its value is the strict-upper count
over `replication_factor`, floored at `1 / replication_factor`, and it
always lies in `(0, 1]`. -/
theorem pValueFromNull_spec (nulls : List ℚ) (obs : ℚ) (rf : ℕ)
    (hrf : 1 ≤ rf) (hlen : nulls.length = rf) :
    pValueFromNull nulls obs rf =
      (if nulls.countP (fun s => decide (obs < s)) = 0 then 1 / (rf : ℚ)
       else (nulls.countP (fun s => decide (obs < s)) : ℚ) / (rf : ℚ)) ∧
    0 < pValueFromNull nulls obs rf ∧ pValueFromNull nulls obs rf ≤ 1 := by
  have hrfQ : (0 : ℚ) < (rf : ℚ) := by exact_mod_cast hrf
  have hrf1 : (1 : ℚ) ≤ (rf : ℚ) := by exact_mod_cast hrf
  have hc_le : nulls.countP (fun s => decide (obs < s)) ≤ rf := by
    rw [← hlen]
    exact List.countP_le_length _
  have hiff : ((nulls.countP (fun s => decide (obs < s)) : ℚ) / (rf : ℚ) = 0) ↔
      (nulls.countP (fun s => decide (obs < s)) = 0) := by
    rw [div_eq_zero_iff]
    constructor
    · rintro (h | h)
      · exact_mod_cast h
      · exact absurd h (ne_of_gt hrfQ)
    · intro h
      left
      exact_mod_cast h
  unfold pValueFromNull
  dsimp only
  rw [if_congr hiff rfl rfl]
  by_cases hc : nulls.countP (fun s => decide (obs < s)) = 0
  · rw [if_pos hc]
    refine ⟨rfl, one_div_pos.mpr hrfQ, ?_⟩
    rw [div_le_one hrfQ]
    exact hrf1
  · rw [if_neg hc]
    have hcQ : (0 : ℚ) < (nulls.countP (fun s => decide (obs < s)) : ℚ) := by
      exact_mod_cast Nat.pos_of_ne_zero hc
    refine ⟨rfl, div_pos hcQ hrfQ, ?_⟩
    rw [div_le_one hrfQ]
    exact_mod_cast hc_le

/-- Claim C3: on the exact path with `replication_factor ≥ 1`, the
returned p-value is the count of null samples strictly greater than the
observed statistic divided by `replication_factor`, except that an exact
`0` is replaced by `1 / replication_factor`; consequently it lies in
`(0, 1]`. -/
theorem mgcx_C3_empirical_p_value (e : MGCEngine) (cd : DistTransform)
    (st : MGCXState) (X Y : DataInput) (rf : ℕ) (draws : ℕ → List ℕ)
    (hsh : shape0 X = shape0 Y) (hrf : 1 ≤ rf) :
    ∃ p nulls,
      (MGCX.p_value_exact e cd st X Y rf draws).1 = Except.ok (p, nulls) ∧
      nulls.length = rf ∧
      p = (if nulls.countP (fun v => decide (tsValue e (shape0 X)
              (usedLagBound st.max_lag (shape0 X)) (cd (to2d X) (to2d Y)).1
              (cd (to2d X) (to2d Y)).2 < v)) = 0
           then 1 / (rf : ℚ)
           else (nulls.countP (fun v => decide (tsValue e (shape0 X)
              (usedLagBound st.max_lag (shape0 X)) (cd (to2d X) (to2d Y)).1
              (cd (to2d X) (to2d Y)).2 < v)) : ℚ) / (rf : ℚ)) ∧
      0 < p ∧ p ≤ 1 := by
  unfold MGCX.p_value_exact
  rw [if_pos hsh]
  dsimp only
  have hlen : (exactNullStats e (shape0 X) (usedLagBound st.max_lag (shape0 X))
      (ceilSqrt (shape0 X)) rf (cd (to2d X) (to2d Y)).1
      (cd (to2d X) (to2d Y)).2 draws).length = rf :=
    exactNullStats_length _ _ _ _ _ _ _ _
  obtain ⟨hval, hpos, hle⟩ := pValueFromNull_spec
    (exactNullStats e (shape0 X) (usedLagBound st.max_lag (shape0 X))
      (ceilSqrt (shape0 X)) rf (cd (to2d X) (to2d Y)).1
      (cd (to2d X) (to2d Y)).2 draws)
    (tsValue e (shape0 X) (usedLagBound st.max_lag (shape0 X))
      (cd (to2d X) (to2d Y)).1 (cd (to2d X) (to2d Y)).2) rf hrf hlen
  exact ⟨_, _, rfl, hlen, hval, hpos, hle⟩

/-- Claim C3 witness: a concrete exact-path call with one repetition. -/
theorem mgcx_C3_witness :
    shape0 X0 = shape0 Y0 ∧ (1 : ℕ) ≤ 1 ∧
    (∃ p nulls,
      (MGCX.p_value_exact e1 cd0 st0 X0 Y0 1 draws0).1 = Except.ok (p, nulls) ∧
      nulls.length = 1 ∧
      p = (if nulls.countP (fun v => decide (tsValue e1 (shape0 X0)
              (usedLagBound st0.max_lag (shape0 X0)) (cd0 (to2d X0) (to2d Y0)).1
              (cd0 (to2d X0) (to2d Y0)).2 < v)) = 0
           then 1 / ((1 : ℕ) : ℚ)
           else (nulls.countP (fun v => decide (tsValue e1 (shape0 X0)
              (usedLagBound st0.max_lag (shape0 X0)) (cd0 (to2d X0) (to2d Y0)).1
              (cd0 (to2d X0) (to2d Y0)).2 < v)) : ℚ) / ((1 : ℕ) : ℚ)) ∧
      0 < p ∧ p ≤ 1) :=
  ⟨rfl, le_refl 1,
    mgcx_C3_empirical_p_value e1 cd0 st0 X0 Y0 1 draws0 rfl (le_refl 1)⟩

/-- The fast-path null array decomposes into the `num_samples` computed
statistics followed by `num_samples * subsample_size - num_samples`
never-written zeros left over from the `np.zeros` allocation. -/
theorem fastNullStats_eq (e : MGCEngine) (ml : Option ℕ) (dx dy : Mat)
    (ns ss : ℕ) (h : 1 ≤ ss) :
    fastNullStats e ml dx dy ns ss =
      (List.range ns).map (fun i =>
        tsValue e ss (usedLagBound ml ss)
          (fun a b => dx (ss * i + a) (ss * i + b))
          (fun a b => dy (ss * i + a) (ss * i + b))) ++
      List.replicate (ns * ss - ns) 0 := by
  unfold fastNullStats
  have hle : ns ≤ ns * ss := Nat.le_mul_of_pos_right ns h
  have hns : ns * ss = ns + (ns * ss - ns) := by omega
  rw [hns, List.range_add, List.map_append]
  congr 1
  · apply List.map_congr_left
    intro i hi
    rw [if_pos (List.mem_range.mp hi)]
  · rw [List.map_map]
    have hfun : ((fun i => if i < ns then
        tsValue e ss (usedLagBound ml ss)
          (fun a b => dx (ss * i + a) (ss * i + b))
          (fun a b => dy (ss * i + a) (ss * i + b))
        else (0 : ℚ)) ∘ fun x => ns + x) = fun _ => (0 : ℚ) := by
      funext x
      simp [Function.comp]
    rw [hfun, List.map_const', List.length_range]
    congr 1
    omega

/-- Claim C1 (divergence): at `n = 20` with the default
`subsample_size = 10` (so `num_samples = 2`), the fast path's null array
has 20 entries, not 2: the 2 computed block statistics are followed by 18
zeros from the `np.zeros(num_samples * subsample_size)` allocation. With a
constant engine statistic of 1, each computed block statistic is 1, yet
the fitted mean is `1/10` (the claimed mean over the 2-element set is `1`)
and the squared scale is `9/200` (the claimed one is `0`). -/
theorem mgcx_C1_fast_null_padding :
    (fast_p_value_approx e1 (some 0) 20 zeroMat zeroMat (ceilSqrt 20) 10
        (List.range 5)).null_distribution.length = 20 ∧
    (fast_p_value_approx e1 (some 0) 20 zeroMat zeroMat (ceilSqrt 20) 10
        (List.range 5)).mu = 1 / 10 ∧
    npMean ((fast_p_value_approx e1 (some 0) 20 zeroMat zeroMat (ceilSqrt 20) 10
        (List.range 5)).null_distribution.take 2) = 1 ∧
    (fast_p_value_approx e1 (some 0) 20 zeroMat zeroMat (ceilSqrt 20) 10
        (List.range 5)).sigmaSq = 9 / 200 := by
  have htv : ∀ f g : Mat, tsValue e1 10 (usedLagBound (some 0) 10) f g = 1 := by
    intro f g
    unfold tsValue lagSearch usedLagBound e1
    simp [max_eq_right (by norm_num : (0 : ℚ) ≤ 1)]
  have hnull : (fast_p_value_approx e1 (some 0) 20 zeroMat zeroMat (ceilSqrt 20) 10
      (List.range 5)).null_distribution =
      List.replicate 2 (1 : ℚ) ++ List.replicate 18 0 := by
    unfold fast_p_value_approx
    dsimp only
    rw [show (20 : ℕ) / 10 = 2 from rfl,
      fastNullStats_eq e1 (some 0) zeroMat _ 2 10 (by norm_num)]
    congr 1
    simp [htv, List.map_const']
  have hmu : (fast_p_value_approx e1 (some 0) 20 zeroMat zeroMat (ceilSqrt 20) 10
      (List.range 5)).mu =
      npMean ((fast_p_value_approx e1 (some 0) 20 zeroMat zeroMat (ceilSqrt 20) 10
        (List.range 5)).null_distribution) := rfl
  have hsig : (fast_p_value_approx e1 (some 0) 20 zeroMat zeroMat (ceilSqrt 20) 10
      (List.range 5)).sigmaSq =
      npVar ((fast_p_value_approx e1 (some 0) 20 zeroMat zeroMat (ceilSqrt 20) 10
        (List.range 5)).null_distribution) / ((2 : ℕ) : ℚ) := rfl
  refine ⟨?_, ?_, ?_, ?_⟩
  · rw [hnull]
    simp
  · rw [hmu, hnull]
    norm_num [npMean, List.sum_replicate]
  · rw [hnull]
    norm_num [npMean, List.take_append_of_le_length, List.sum_replicate]
  · rw [hsig, hnull]
    norm_num [npVar, npMean, List.sum_replicate, List.map_replicate,
      List.sum_append, List.map_append, List.length_append, smul_eq_mul]

/-- Claim C10: a 1-D input of length `n` is not rejected but reshaped to an
`[n, 1]` column matrix, and both `test_statistic` and `p_value` return
exactly what they return on the explicit `[n, 1]` matrix, on either
argument position. -/
theorem mgcx_C10_vector_reshape (e : MGCEngine) (cd : DistTransform)
    (st : MGCXState) (v : List ℚ) (Z : DataInput) (rf : ℕ)
    (draws : ℕ → List ℕ) :
    MGCX.test_statistic e cd st (DataInput.vec v) Z =
      MGCX.test_statistic e cd st (DataInput.mat (colMat v)) Z ∧
    MGCX.test_statistic e cd st Z (DataInput.vec v) =
      MGCX.test_statistic e cd st Z (DataInput.mat (colMat v)) ∧
    MGCX.p_value_exact e cd st (DataInput.vec v) Z rf draws =
      MGCX.p_value_exact e cd st (DataInput.mat (colMat v)) Z rf draws ∧
    MGCX.p_value_exact e cd st Z (DataInput.vec v) rf draws =
      MGCX.p_value_exact e cd st Z (DataInput.mat (colMat v)) rf draws := by
  have h1 : shape0 (DataInput.vec v) = shape0 (DataInput.mat (colMat v)) := by
    simp [shape0, colMat]
  have h2 : to2d (DataInput.vec v) = to2d (DataInput.mat (colMat v)) := rfl
  refine ⟨?_, ?_, ?_, ?_⟩
  · unfold MGCX.test_statistic
    rw [h1, h2]
  · unfold MGCX.test_statistic
    rw [h1, h2]
  · unfold MGCX.p_value_exact
    rw [h1, h2]
  · unfold MGCX.p_value_exact
    rw [h1, h2]
